import Mathlib

/-!
Shallow embedding of the persistent circular record buffer
(`circular_buffer.cpp`, the two-header revision with sequence + CRC).

The C++ code targets a 32-bit ESP device: `size_t` and `uint32_t` are both
32 bits wide, `struct cb_header` is `{ magic : u32, front : u32 (size_t),
record_num : u32, sequence : u32, crc : u32 }`, 20 bytes, little-endian,
no padding.  Machine integers are modelled as `Nat`, with an explicit
`% 2^32` at the operations where the C++ arithmetic can actually wrap:
the `++sequence` of `write_header`, the `record_num--` of `delete_front`
(which underflows on an empty buffer) and the `record_num++` of
`push_back`.  Flash I/O is modelled by an explicit trace of operations;
the fallible calls are parameterised by their outcome where a claim
depends on failure.
-/

set_option autoImplicit false
set_option maxRecDepth 100000

namespace CircularBuffer

/-- `#define MAGIC 0x5B15B1` -/
def MAGIC : Nat := 0x5B15B1

/-- `UINT32_MAX` -/
def UINT32_MAX : Nat := 4294967295

/-- 2^32, the modulus of 32-bit arithmetic. -/
def U32MOD : Nat := 4294967296

/-- Static configuration of one mounted buffer: the wear-levelling
partition geometry (`wl_sector_size`, `wl_size`) together with the
`record_size` and `overwrite` arguments stored by `init`. -/
structure Config where
  sec_size : Nat
  total_size : Nat
  record_size : Nat
  overwrite : Bool
  deriving Repr, DecidableEq

/-- The mutable members of class `CircularBuffer`: `front`, `record_num`
and `sequence`. -/
structure CBState where
  front : Nat
  record_num : Nat
  sequence : Nat
  deriving Repr, DecidableEq

/-- `struct cb_header` (all fields 32-bit on the target). -/
structure cb_header where
  magic : Nat
  front : Nat
  record_num : Nat
  sequence : Nat
  crc : Nat
  deriving Repr, DecidableEq

/-- `sizeof(struct cb_header)` on the 32-bit target: five 4-byte fields. -/
def sizeof_cb_header : Nat := 20

/-- One trace entry per wear-levelling API call that touches flash. -/
inductive FlashOp where
  | read (off len : Nat)
  | write (off len : Nat)
  | eraseRange (off len : Nat)
  deriving Repr, DecidableEq

/-- The `esp_err_t` values the unit returns. -/
inductive EspErr where
  | ok
  | errNotFound
  | errInvalidSize
  | errNoMem
  | errFail
  deriving Repr, DecidableEq

/-- `CircularBuffer::secs_for_one_header` -/
def secs_for_one_header (cfg : Config) : Nat :=
  (sizeof_cb_header + cfg.sec_size - 1) / cfg.sec_size

/-- `CircularBuffer::secs_for_header` -/
def secs_for_header (cfg : Config) : Nat :=
  2 * secs_for_one_header cfg

/-- `CircularBuffer::header_offset` -/
def header_offset (cfg : Config) : Nat :=
  secs_for_header cfg * cfg.sec_size

/-- `CircularBuffer::records_in_sec` -/
def records_in_sec (cfg : Config) : Nat :=
  cfg.sec_size / cfg.record_size

/-- `CircularBuffer::sec_num` -/
def sec_num (cfg : Config) : Nat :=
  cfg.total_size / cfg.sec_size - secs_for_header cfg

/-- `CircularBuffer::get_max_records` -/
def get_max_records (cfg : Config) : Nat :=
  sec_num cfg * records_in_sec cfg

/-! ### CRC-32

`esp_crc32_le` is the standard (reflected, Ethernet) CRC-32: initial
value `~crc`, polynomial `0xEDB88320`, final complement. -/

/-- One shift-and-conditionally-xor step of the reflected CRC-32. -/
def crc32_step (c : Nat) : Nat :=
  if c % 2 = 1 then (c / 2) ^^^ 0xEDB88320 else c / 2

/-- Fold one byte into the running CRC (8 bit steps). -/
def crc32_byte (c b : Nat) : Nat :=
  crc32_step (crc32_step (crc32_step (crc32_step
    (crc32_step (crc32_step (crc32_step (crc32_step (c ^^^ b))))))))

/-- `esp_crc32_le(crc, buf, len)` over an explicit byte list. -/
def esp_crc32_le (crc : Nat) (data : List Nat) : Nat :=
  (data.foldl crc32_byte (crc ^^^ UINT32_MAX)) ^^^ UINT32_MAX

/-- Little-endian serialisation of one 32-bit field. -/
def le_bytes4 (n : Nat) : List Nat :=
  [n % 256, n / 256 % 256, n / 65536 % 256, n / 16777216 % 256]

/-- The first `sizeof(struct cb_header) - sizeof(uint32_t)` bytes of the
serialised header: every field before the trailing `crc`. -/
def header_bytes_no_crc (h : cb_header) : List Nat :=
  le_bytes4 h.magic ++ le_bytes4 h.front ++ le_bytes4 h.record_num ++
    le_bytes4 h.sequence

/-- The CRC the code computes in `update_crc` and `check_header`:
`esp_crc32_le(0, (const uint8_t*)hdr, sizeof(struct cb_header) - sizeof(uint32_t))`. -/
def header_crc (h : cb_header) : Nat :=
  esp_crc32_le 0 (header_bytes_no_crc h)

/-- `update_crc`: zero the field, then store the CRC of the leading bytes. -/
def update_crc (h : cb_header) : cb_header :=
  { h with crc := header_crc { h with crc := 0 } }

/-- `check_header` -/
def check_header (h : cb_header) : Bool :=
  header_crc h == h.crc && h.magic == MAGIC

/-- `is_all_ff` -/
def is_all_ff (bytes : List Nat) : Bool :=
  bytes.all (fun b => b == 0xFF)

/-! ### get_back -/

/-- `CircularBuffer::get_back`, as a function of the stored `front` and
`record_num`. -/
def get_back (cfg : Config) (front record_num : Nat) : Nat :=
  let sec_size := cfg.sec_size
  let remaining_capacity_in_front_sector :=
    (sec_size - front % sec_size) / cfg.record_size
  if remaining_capacity_in_front_sector > record_num then
    front + record_num * cfg.record_size
  else
    let remaining_records := record_num - remaining_capacity_in_front_sector
    let full_secs := remaining_records / records_in_sec cfg
    let front_sec := front / sec_size
    let back_sec := (front_sec + full_secs + 1) % sec_num cfg
    let back_offset_in_sec := remaining_records % records_in_sec cfg * cfg.record_size
    back_sec * sec_size + back_offset_in_sec

/-! ### write_header -/

/-- The header assembled by `write_header`: current `front` and
`record_num`, `sequence` pre-incremented (32-bit wrap), CRC filled in by
`update_crc`. -/
def mk_header (s : CBState) : cb_header :=
  update_crc
    { magic := MAGIC, front := s.front, record_num := s.record_num,
      sequence := (s.sequence + 1) % U32MOD, crc := 0 }

/-- The flash address `write_header` erases and writes:
`(sequence % 2) * secs_for_one_header() * wl_sector_size()`, evaluated
after the increment of `sequence`. -/
def write_header_addr (cfg : Config) (s : CBState) : Nat :=
  (s.sequence + 1) % U32MOD % 2 * (secs_for_one_header cfg * cfg.sec_size)

/-- `CircularBuffer::write_header`, with the outcomes of `wl_erase_range`
and `wl_write` as parameters.  The member `sequence` is incremented
before either flash call is made. -/
def write_header_io (cfg : Config) (s : CBState) (eraseOk writeOk : Bool) :
    EspErr × CBState × List FlashOp :=
  let s' : CBState := { s with sequence := (s.sequence + 1) % U32MOD }
  let addr := write_header_addr cfg s
  let len := secs_for_one_header cfg * cfg.sec_size
  if eraseOk then
    if writeOk then
      (.ok, s', [.eraseRange addr len, .write addr sizeof_cb_header])
    else
      (.errFail, s', [.eraseRange addr len, .write addr sizeof_cb_header])
  else
    (.errFail, s', [.eraseRange addr len])

/-- `write_header` on the success path: the new state and the header
bytes that land in the slot. -/
def write_header (cfg : Config) (s : CBState) : CBState × cb_header :=
  (({ s with sequence := (s.sequence + 1) % U32MOD } : CBState), mk_header s)

/-! ### init

The partition lookup and `wl_mount` happen before any of the modelled
logic; the model starts at the `record_size` check, taking the two header
slots as read and, for the recovery branch, the `record_size` bytes the
back-scan reads at `header_offset() + back`.  All reads succeed; the
result records the final in-memory state and the headers published by
any `write_header` call made during the mount. -/

/-- Adopt one header's fields into the member variables. -/
def adopt (h : cb_header) : CBState :=
  { front := h.front, record_num := h.record_num, sequence := h.sequence }

/-- `CircularBuffer::init` from the `record_size` check on.  Returns the
`esp_err_t`, the final `(front, record_num, sequence)` (meaningless when
the size check fails, as in the code), and the list of headers published
during the mount. -/
def init (cfg : Config) (h1 h2 : cb_header) (recovery_mode : Bool)
    (scan : List Nat) (s0 : CBState) : EspErr × CBState × List cb_header :=
  if cfg.record_size > cfg.sec_size then
    (.errInvalidSize, s0, [])
  else
    let header1_valid := check_header h1
    let header2_valid := check_header h2
    if header1_valid && header2_valid then
      if h1.sequence > h2.sequence ||
          (h1.sequence == 0 && h2.sequence == UINT32_MAX) then
        (.ok, adopt h1, [])
      else
        (.ok, adopt h2, [])
    else if recovery_mode && (header1_valid ^^ header2_valid) then
      let s := if header1_valid then adopt h1 else adopt h2
      let back := get_back cfg s.front s.record_num
      if back % cfg.sec_size ≠ 0 then
        if ¬ is_all_ff scan then
          let s' : CBState := { s with record_num := (s.record_num + 1) % U32MOD }
          let (s'', hdr) := write_header cfg s'
          (.ok, s'', [hdr])
        else
          (.ok, s, [])
      else
        (.ok, s, [])
    else
      let reset : CBState := { front := 0, record_num := 0, sequence := UINT32_MAX }
      let (s'', hdr) := write_header cfg reset
      (.ok, s'', [hdr])

/-! ### push_back -/

/-- Lines 133–151 of `push_back`: compute the write offset `back`,
mutating `front`/`record_num` first in the overwrite-on-full branch, and
fail with `ESP_ERR_NO_MEM` when full without overwrite.  Returns the
member state as it stands when control reaches the flash writes,
together with `back`. -/
def push_back_compute (cfg : Config) (s : CBState) : Option (CBState × Nat) :=
  let sec_size := cfg.sec_size
  let remaining_capacity_in_front_sector :=
    (sec_size - s.front % sec_size) / cfg.record_size
  if remaining_capacity_in_front_sector > s.record_num then
    some (s, s.front + s.record_num * cfg.record_size)
  else
    let remaining_records := s.record_num - remaining_capacity_in_front_sector
    let full_secs := remaining_records / records_in_sec cfg
    let front_sec := s.front / sec_size
    let back_sec := (front_sec + full_secs + 1) % sec_num cfg
    let back_offset_in_sec := remaining_records % records_in_sec cfg * cfg.record_size
    let back := back_sec * sec_size + back_offset_in_sec
    if back_sec == front_sec then
      if cfg.overwrite then
        some
          ({ s with
              front := (front_sec + 1) % sec_num cfg * sec_size,
              record_num := s.record_num - remaining_capacity_in_front_sector },
            back)
      else
        none
    else
      some (s, back)

/-- `CircularBuffer::push_back` with all flash calls succeeding: erase
the target sector when `back` is sector-aligned, write the record,
increment `record_num`, publish a header. -/
def push_back (cfg : Config) (s : CBState) : EspErr × CBState × List FlashOp :=
  match push_back_compute cfg s with
  | none => (.errNoMem, s, [])
  | some (s1, back) =>
      let dataOps :=
        (if back % cfg.sec_size = 0 then
          [FlashOp.eraseRange (back + header_offset cfg) cfg.sec_size]
        else []) ++ [FlashOp.write (back + header_offset cfg) cfg.record_size]
      let s2 : CBState := { s1 with record_num := (s1.record_num + 1) % U32MOD }
      let s3 := (write_header cfg s2).1
      (.ok, s3,
        dataOps ++
          [FlashOp.eraseRange (write_header_addr cfg s2)
              (secs_for_one_header cfg * cfg.sec_size),
            FlashOp.write (write_header_addr cfg s2) sizeof_cb_header])

/-! ### peek_front, delete_front, pop_front -/

/-- `CircularBuffer::peek_front`, with the outcome of the `wl_read` as a
parameter.  It never touches the member state and never writes flash. -/
def peek_front (cfg : Config) (s : CBState) (readOk : Bool) :
    EspErr × CBState × List FlashOp :=
  if s.record_num = 0 then
    (.errNotFound, s, [])
  else
    ((if readOk then .ok else .errFail), s,
      [FlashOp.read (s.front + header_offset cfg) cfg.record_size])

/-- `CircularBuffer::delete_front` with the header publication
succeeding.  Note the code has no emptiness check: `record_num--` wraps
when the buffer is empty. -/
def delete_front (cfg : Config) (s : CBState) : EspErr × CBState × List FlashOp :=
  let sec_size := cfg.sec_size
  let front' :=
    if sec_size - s.front % sec_size > 2 * cfg.record_size then
      s.front + cfg.record_size
    else
      (s.front / sec_size + 1) % sec_num cfg * sec_size
  let s' : CBState :=
    { s with front := front',
             record_num := (s.record_num + (U32MOD - 1)) % U32MOD }
  let s'' := (write_header cfg s').1
  (.ok, s'',
    [FlashOp.eraseRange (write_header_addr cfg s')
        (secs_for_one_header cfg * cfg.sec_size),
      FlashOp.write (write_header_addr cfg s') sizeof_cb_header])

/-- `CircularBuffer::pop_front`: `peek_front` then `delete_front`; a
failing peek is surfaced without mutating state. -/
def pop_front (cfg : Config) (s : CBState) (readOk : Bool) :
    EspErr × CBState × List FlashOp :=
  let (err, s1, ops1) := peek_front cfg s readOk
  if err ≠ .ok then
    (err, s1, ops1)
  else
    let (err2, s2, ops2) := delete_front cfg s1
    (err2, s2, ops1 ++ ops2)

/-! ### Operation sequences -/

/-- The two mutating queue operations. -/
inductive Op where
  | push
  | delete
  deriving Repr, DecidableEq

/-- The in-memory state after one operation (all flash I/O succeeding). -/
def step (cfg : Config) (s : CBState) : Op → CBState
  | .push => (push_back cfg s).2.1
  | .delete => (delete_front cfg s).2.1

/-- The in-memory state after a sequence of operations. -/
def run (cfg : Config) (s : CBState) : List Op → CBState
  | [] => s
  | op :: ops => run cfg (step cfg s op) ops

/-- A sequence respects capacity when every `delete` is issued on a
non-empty buffer (a full `push` either fails without mutating or, in
overwrite mode, makes room by itself). -/
def admissible (cfg : Config) (s : CBState) : List Op → Bool
  | [] => true
  | op :: ops =>
      (op ≠ Op.delete || decide (1 ≤ s.record_num)) &&
        admissible cfg (step cfg s op) ops

/-- The inductive state invariant: `record_num` within capacity, `front`
inside the ring, `front` at a record-slot boundary of its sector, and at
least one record slot left after `front` in its sector. -/
def Inv (cfg : Config) (s : CBState) : Prop :=
  s.record_num ≤ get_max_records cfg ∧
  s.front % cfg.sec_size % cfg.record_size = 0 ∧
  s.front < sec_num cfg * cfg.sec_size ∧
  cfg.record_size ≤ cfg.sec_size - s.front % cfg.sec_size

/-! ### The back-offset formula of the design document -/

/-- The back-offset computation exactly as §4.3 of the design document
states it, as a function of the geometry: sector size `S`, ring size `N`
sectors, `records_per_sector` slots per sector and the record size. -/
def back_formula (S N records_per_sector rs front rn : Nat) : Nat :=
  let rem_front := (S - front % S) / rs
  if rem_front > rn then
    front + rn * rs
  else
    let remaining := rn - rem_front
    let full_secs := remaining / records_per_sector
    let front_sec := front / S
    let back_sec := (front_sec + full_secs + 1) % N
    back_sec * S + remaining % records_per_sector * rs

/-- The full 20-byte little-endian serialisation of a header. -/
def header_bytes (h : cb_header) : List Nat :=
  header_bytes_no_crc h ++ le_bytes4 h.crc

/-- The CRC described by the specification sentence: CRC-32 of the
*entire* header byte sequence with the `crc` field's bytes treated as
zero. -/
def header_crc_spec (h : cb_header) : Nat :=
  esp_crc32_le 0 (header_bytes { h with crc := 0 })

/-! ### Concrete instances used by witnesses and counterexamples -/

/-- The scenario geometry of §8: `S = 4096`, `record_size = 16`,
`P = 32768`, so `N = 6` and `capacity = 1536`. -/
def cfgS : Config :=
  { sec_size := 4096, total_size := 32768, record_size := 16, overwrite := false }

/-- A geometry whose record size does not divide the sector size:
`S = 8`, `record_size = 3`, `N = 2`, `capacity = 4`. -/
def cfg9 : Config :=
  { sec_size := 8, total_size := 64, record_size := 3, overwrite := false }

/-- An overwrite-mode geometry: `S = 8`, `record_size = 2`, `N = 2`,
`capacity = 8`. -/
def cfgO : Config :=
  { sec_size := 8, total_size := 64, record_size := 2, overwrite := true }

/-- The §8 geometry with `record_size = 0`. -/
def cfgZ : Config :=
  { sec_size := 4096, total_size := 32768, record_size := 0, overwrite := false }

/-- An all-zero header slot (invalid: wrong magic, wrong CRC). -/
def blank : cb_header := { magic := 0, front := 0, record_num := 0, sequence := 0, crc := 0 }

/-- A well-formed header with sequence 5. -/
def hdrA : cb_header :=
  update_crc { magic := MAGIC, front := 32, record_num := 3, sequence := 5, crc := 0 }

/-- A well-formed header with sequence 4. -/
def hdrB : cb_header :=
  update_crc { magic := MAGIC, front := 0, record_num := 0, sequence := 4, crc := 0 }

/-! ## Theorems -/

/-- **C4.** For every state with `front` a multiple of `record_size`,
`0 ≤ record_num ≤ capacity` and `front < N·S`, `get_back` returns
`front + record_num · record_size` when
`rem_front = (S − front mod S) / record_size` exceeds `record_num`, and
otherwise `back_sec · S + (remaining mod records_per_sector) · record_size`
with `remaining = record_num − rem_front` and
`back_sec = (front/S + remaining/records_per_sector + 1) mod N` — i.e.
`get_back` computes exactly the §4.3 back-offset formula. -/
theorem get_back_matches_formula (cfg : Config) (front rn : Nat)
    (halign : cfg.record_size ∣ front)
    (hcap : rn ≤ get_max_records cfg)
    (hfr : front < sec_num cfg * cfg.sec_size) :
    get_back cfg front rn =
      back_formula cfg.sec_size (sec_num cfg) (records_in_sec cfg)
        cfg.record_size front rn := rfl

/-- Witness for C4 at the §8 geometry, `front = 32`, `record_num = 300`. -/
theorem get_back_matches_formula_witness :
    get_back cfgS 32 300 =
      back_formula cfgS.sec_size (sec_num cfgS) (records_in_sec cfgS)
        cfgS.record_size 32 300 :=
  get_back_matches_formula cfgS 32 300 (by decide) (by decide) (by decide)

/-- **C7, counterexample.** For the header
`{magic = 0x5B15B1, front = 0, record_num = 0, sequence = 0}`, the `crc`
field the code stores is *not* the CRC-32 of the entire header byte
sequence with the `crc` field's bytes treated as zero: the code CRCs
only the first `sizeof(cb_header) − 4` bytes, and appending four zero
bytes changes the CRC-32 value. -/
theorem crc_not_over_whole_struct :
    (update_crc { magic := MAGIC, front := 0, record_num := 0, sequence := 0, crc := 0 }).crc ≠
      header_crc_spec { magic := MAGIC, front := 0, record_num := 0, sequence := 0, crc := 0 } := by
  decide

/-- **C7, amended.** The `crc` field written by `update_crc` equals the
CRC-32 (LE Ethernet polynomial) of the header bytes *excluding* the
trailing `crc` field (the first `sizeof(cb_header) − sizeof(uint32_t)`
bytes), and `check_header` accepts a header exactly when this CRC
matches the stored `crc` and `magic` equals `0x005B15B1`. -/
theorem crc_over_leading_bytes (h : cb_header) :
    (update_crc h).crc = esp_crc32_le 0 (header_bytes_no_crc h) ∧
    (check_header h = true ↔
      esp_crc32_le 0 (header_bytes_no_crc h) = h.crc ∧ h.magic = MAGIC) := by
  constructor
  · rfl
  · simp [check_header, header_crc]

/-- **C2, counterexample.** `write_header` increments the in-memory
`sequence` *before* issuing the erase: at the state
`(front 0, record_num 0, sequence 5)` with a failing erase, the call
fails yet the in-memory sequence is 6, not the old 5. -/
theorem write_header_seq_changed_on_failure :
    (write_header_io cfgS { front := 0, record_num := 0, sequence := 5 } false true).1 ≠ EspErr.ok ∧
    (write_header_io cfgS { front := 0, record_num := 0, sequence := 5 } false true).2.1.sequence = 6 := by
  decide

/-- **C2, amended.** Every `write_header` call assembles a header
carrying `sequence' = (sequence + 1) mod 2³²`, erases and writes the
slot at address `(sequence' mod 2) · secs_for_one_header · S` (the slot
not holding the current authoritative header), and leaves the in-memory
`sequence` equal to `sequence'` whether the erase and write succeed or
fail: the increment happens before any flash I/O. -/
theorem write_header_sequence_slot (cfg : Config) (s : CBState) (eraseOk writeOk : Bool) :
    (write_header cfg s).2.sequence = (s.sequence + 1) % U32MOD ∧
    (write_header cfg s).2.front = s.front ∧
    (write_header cfg s).2.record_num = s.record_num ∧
    (write_header_io cfg s eraseOk writeOk).2.2 =
      (if eraseOk then
        [FlashOp.eraseRange ((s.sequence + 1) % U32MOD % 2 * (secs_for_one_header cfg * cfg.sec_size))
            (secs_for_one_header cfg * cfg.sec_size),
          FlashOp.write ((s.sequence + 1) % U32MOD % 2 * (secs_for_one_header cfg * cfg.sec_size))
            sizeof_cb_header]
      else
        [FlashOp.eraseRange ((s.sequence + 1) % U32MOD % 2 * (secs_for_one_header cfg * cfg.sec_size))
            (secs_for_one_header cfg * cfg.sec_size)]) ∧
    (write_header_io cfg s eraseOk writeOk).2.1.sequence = (s.sequence + 1) % U32MOD := by
  cases eraseOk <;> cases writeOk <;>
    exact ⟨rfl, rfl, rfl, rfl, rfl⟩

/-- **C6.** `delete_front` has no emptiness check: at the §8 geometry
with `record_num = 0` it succeeds, advances `front` by one record and
wraps `record_num` to `UINT32_MAX`, instead of failing `Empty` and
leaving the state unchanged. -/
theorem delete_front_empty_underflows :
    (delete_front cfgS { front := 0, record_num := 0, sequence := 7 }).1 = EspErr.ok ∧
    (delete_front cfgS { front := 0, record_num := 0, sequence := 7 }).2.1.record_num = UINT32_MAX ∧
    (delete_front cfgS { front := 0, record_num := 0, sequence := 7 }).2.1.front = 16 := by
  decide

/-- **C8, counterexample.** `record_size = 0` is *not* rejected: at the
§8 geometry with `record_size = 0` and two blank header slots, `init`
returns `ESP_OK`, not `InvalidSize`. -/
theorem init_accepts_zero_record_size :
    cfgZ.record_size = 0 ∧
    (init cfgZ blank blank false [] { front := 0, record_num := 0, sequence := 0 }).1 =
      EspErr.ok := by
  decide

/-- **C8, amended.** After a successful partition mount, `init` fails
with `InvalidSize` exactly when `record_size > S`; in particular
`record_size = 0` is accepted. -/
theorem init_invalid_size_iff (cfg : Config) (h1 h2 : cb_header)
    (recovery_mode : Bool) (scan : List Nat) (s0 : CBState) :
    (init cfg h1 h2 recovery_mode scan s0).1 = EspErr.errInvalidSize ↔
      cfg.sec_size < cfg.record_size := by
  by_cases hc : cfg.record_size > cfg.sec_size
  · constructor
    · intro _
      exact hc
    · intro _
      unfold init
      rw [if_pos hc]
  · have hok : (init cfg h1 h2 recovery_mode scan s0).1 = EspErr.ok := by
      unfold init
      rw [if_neg hc]
      dsimp only
      repeat' split
      all_goals rfl
    constructor
    · intro h
      rw [hok] at h
      exact EspErr.noConfusion h
    · intro h
      exact absurd h hc

/-- **C3.** At mount, when both header slots are valid, the adopted
state (`front`, `record_num`, `sequence`) is that of the header with
the greater sequence, slot A winning on the wrap-around case
`seq_a = 0 ∧ seq_b = UINT32_MAX`, and nothing is published; when
neither is valid, or exactly one is valid and `recovery_mode` is false,
the state is reset to `front = 0, record_num = 0, sequence = UINT32_MAX`
and one header is published, which therefore carries sequence 0 (the
in-memory sequence becoming 0). -/
theorem init_header_selection (cfg : Config) (h1 h2 : cb_header)
    (recovery_mode : Bool) (scan : List Nat) (s0 : CBState)
    (hsz : cfg.record_size ≤ cfg.sec_size) :
    (check_header h1 = true → check_header h2 = true →
      (init cfg h1 h2 recovery_mode scan s0).2.1 =
        (if h1.sequence > h2.sequence ||
            (h1.sequence == 0 && h2.sequence == UINT32_MAX) then
          adopt h1
        else
          adopt h2) ∧
      (init cfg h1 h2 recovery_mode scan s0).2.2 = []) ∧
    (((check_header h1 = false ∧ check_header h2 = false) ∨
        ((check_header h1 ^^ check_header h2) = true ∧ recovery_mode = false)) →
      (init cfg h1 h2 recovery_mode scan s0).2.1 =
        { front := 0, record_num := 0, sequence := 0 } ∧
      (init cfg h1 h2 recovery_mode scan s0).2.2 =
        [mk_header { front := 0, record_num := 0, sequence := UINT32_MAX }] ∧
      (mk_header { front := 0, record_num := 0, sequence := UINT32_MAX }).sequence = 0) := by
  have hneg : ¬ cfg.record_size > cfg.sec_size := Nat.not_lt.mpr hsz
  constructor
  · intro hv1 hv2
    unfold init
    rw [if_neg hneg]
    dsimp only
    rw [hv1, hv2]
    by_cases hcond :
        (decide (h1.sequence > h2.sequence) ||
          (h1.sequence == 0 && h2.sequence == UINT32_MAX)) = true
    · simp [hcond]
    · simp [hcond]
  · intro hcase
    unfold init
    rw [if_neg hneg]
    dsimp only
    rcases hcase with ⟨hv1, hv2⟩ | ⟨hx, hr⟩
    · rw [hv1, hv2]
      simp only [Bool.and_self, Bool.xor_self, Bool.and_false]
      exact ⟨rfl, rfl, rfl⟩
    · have hand : (check_header h1 && check_header h2) = false := by
        cases hcv1 : check_header h1 <;> cases hcv2 : check_header h2 <;> simp_all
      rw [hand, hr]
      exact ⟨rfl, rfl, rfl⟩

/-- Witness for C3: both slots valid, `hdrA` with sequence 5 beats
`hdrB` with sequence 4. -/
theorem init_header_selection_witness :
    (init cfgS hdrA hdrB false [] { front := 0, record_num := 0, sequence := 0 }).2.1 =
      adopt hdrA := by
  have h := (init_header_selection cfgS hdrA hdrB false []
    { front := 0, record_num := 0, sequence := 0 } (by decide)).1 (by decide) (by decide)
  rw [h.1]
  decide

/-- **C5.** At mount with `recovery_mode` set and exactly one valid
header slot, `init` adopts that header's state; then if `get_back()` is
not sector-aligned and the bytes read at `back + header_offset` are not
all `0xFF`, it increments `record_num` by exactly one and publishes a
header; if the bytes are all `0xFF` or `back` is sector-aligned, the
adopted state is kept untouched and nothing is published. -/
theorem init_recovery_backscan (cfg : Config) (h1 h2 hsel : cb_header)
    (scan : List Nat) (s0 : CBState)
    (hsz : cfg.record_size ≤ cfg.sec_size)
    (hxor : (check_header h1 ^^ check_header h2) = true)
    (hsel_def : hsel = if check_header h1 then h1 else h2)
    (hrecnum : hsel.record_num < UINT32_MAX) :
    ((get_back cfg hsel.front hsel.record_num % cfg.sec_size ≠ 0 ∧
        is_all_ff scan = false) →
      (init cfg h1 h2 true scan s0).2.1.front = hsel.front ∧
      (init cfg h1 h2 true scan s0).2.1.record_num = hsel.record_num + 1 ∧
      (init cfg h1 h2 true scan s0).2.1.sequence = (hsel.sequence + 1) % U32MOD ∧
      (init cfg h1 h2 true scan s0).2.2 =
        [mk_header ⟨hsel.front, hsel.record_num + 1, hsel.sequence⟩]) ∧
    ((get_back cfg hsel.front hsel.record_num % cfg.sec_size = 0 ∨
        is_all_ff scan = true) →
      (init cfg h1 h2 true scan s0).2.1 = adopt hsel ∧
      (init cfg h1 h2 true scan s0).2.2 = []) := by
  have hneg : ¬ cfg.record_size > cfg.sec_size := Nat.not_lt.mpr hsz
  have hmod : (hsel.record_num + 1) % U32MOD = hsel.record_num + 1 := by
    have h32 : UINT32_MAX < U32MOD := by decide
    exact Nat.mod_eq_of_lt (by omega)
  cases hcv1 : check_header h1
  · have hv2 : check_header h2 = true := by
      rw [hcv1] at hxor
      simpa using hxor
    have hsel2 : hsel = h2 := by rw [hsel_def, hcv1]; rfl
    subst hsel2
    constructor
    · intro ⟨hback, hff⟩
      unfold init
      rw [if_neg hneg]
      dsimp only
      simp [hcv1, hv2, hback, hff, hmod, write_header, adopt]
    · intro hor
      unfold init
      rw [if_neg hneg]
      dsimp only
      by_cases hback : get_back cfg hsel.front hsel.record_num % cfg.sec_size ≠ 0
      · have hff : is_all_ff scan = true := by
          rcases hor with h | h
          · exact absurd h hback
          · exact h
        simp [hcv1, hv2, hback, hff, adopt]
      · simp [hcv1, hv2, hback, adopt]
  · have hv2 : check_header h2 = false := by
      rw [hcv1] at hxor
      simpa using hxor
    have hsel1 : hsel = h1 := by rw [hsel_def, hcv1]; rfl
    subst hsel1
    constructor
    · intro ⟨hback, hff⟩
      unfold init
      rw [if_neg hneg]
      dsimp only
      simp [hcv1, hv2, hback, hff, hmod, write_header, adopt]
    · intro hor
      unfold init
      rw [if_neg hneg]
      dsimp only
      by_cases hback : get_back cfg hsel.front hsel.record_num % cfg.sec_size ≠ 0
      · have hff : is_all_ff scan = true := by
          rcases hor with h | h
          · exact absurd h hback
          · exact h
        simp [hcv1, hv2, hback, hff, adopt]
      · simp [hcv1, hv2, hback, adopt]

/-- Witness for C5: `hdrA` valid, second slot blank, back-scan bytes
not all `0xFF`: `record_num` goes from 3 to 4. -/
theorem init_recovery_backscan_witness :
    (init cfgS hdrA blank true [0] { front := 0, record_num := 0, sequence := 0 }).2.1.record_num = 4 := by
  have h := (init_recovery_backscan cfgS hdrA blank hdrA [0]
    { front := 0, record_num := 0, sequence := 0 }
    (by decide) (by decide) (by decide) (by decide)).1 ⟨by decide, by decide⟩
  rw [h.2.1]
  decide

/-- After the overwrite branch drops the front sector — new front
`((front/S + 1) mod N) · S`, new count `remaining = record_num − rem_front`
— `get_back` of the new state equals the stale
`back = front_sec · S + (remaining mod rps) · rs` the code computed
before the mutation, provided the full condition
`(front_sec + remaining/rps + 1) mod N = front_sec` held. -/
theorem get_back_after_drop (cfg : Config) (front rn : Nat)
    (hrs : 1 ≤ cfg.record_size) (hsz : cfg.record_size ≤ cfg.sec_size)
    (hfr : front < sec_num cfg * cfg.sec_size)
    (hfull2 : (front / cfg.sec_size +
        (rn - (cfg.sec_size - front % cfg.sec_size) / cfg.record_size) / records_in_sec cfg + 1)
        % sec_num cfg = front / cfg.sec_size) :
    get_back cfg ((front / cfg.sec_size + 1) % sec_num cfg * cfg.sec_size)
        (rn - (cfg.sec_size - front % cfg.sec_size) / cfg.record_size) =
      front / cfg.sec_size * cfg.sec_size +
        (rn - (cfg.sec_size - front % cfg.sec_size) / cfg.record_size)
          % records_in_sec cfg * cfg.record_size := by
  set S := cfg.sec_size with hS
  set rs := cfg.record_size with hrs_def
  set N := sec_num cfg with hN_def
  set rps := records_in_sec cfg with hrps_def
  set fs := front / S with hfs
  set remaining := rn - (S - front % S) / rs with hrem
  have hSpos : 0 < S := Nat.lt_of_lt_of_le hrs hsz
  have hSdiv : S / rs = rps := by
    rw [hrps_def]
    unfold records_in_sec
    rw [← hS, ← hrs_def]
  have hrps1 : 1 ≤ rps := by
    rw [← hSdiv]
    exact (Nat.le_div_iff_mul_le hrs).2 (by omega)
  have hNS : 0 < N * S := Nat.lt_of_le_of_lt (Nat.zero_le _) hfr
  have hNpos : 0 < N := by
    rcases Nat.eq_zero_or_pos N with h | h
    · rw [h, Nat.zero_mul] at hNS
      exact absurd hNS (Nat.lt_irrefl 0)
    · exact h
  have hfsN : fs < N := by
    rw [hfs]
    exact (Nat.div_lt_iff_lt_mul hSpos).2 hfr
  have hfront' : (fs + 1) % N * S % S = 0 := Nat.mul_mod_left _ _
  have hdiv' : (fs + 1) % N * S / S = (fs + 1) % N := Nat.mul_div_cancel _ hSpos
  unfold get_back
  dsimp only
  rw [← hS, ← hrs_def, ← hN_def, ← hrps_def, hfront', Nat.sub_zero, hSdiv, hdiv']
  rcases Nat.eq_zero_or_pos (remaining / rps) with hfz | hfpos
  · -- no full extra sector: the full condition forces N = 1, fs = 0
    rw [hfz, Nat.add_zero] at hfull2
    have hrlt : remaining < rps := (Nat.div_eq_zero_iff hrps1).1 hfz
    have hN1 : N = 1 ∧ fs = 0 := by
      rcases Nat.lt_or_ge (fs + 1) N with hlt | hge
      · rw [Nat.mod_eq_of_lt hlt] at hfull2
        omega
      · have hfseq : fs + 1 = N := by omega
        rw [hfseq, Nat.mod_self] at hfull2
        omega
    rw [if_pos hrlt, hN1.1, hN1.2]
    simp only [Nat.zero_add, Nat.mod_self, Nat.zero_mul]
    rw [Nat.mod_eq_of_lt hrlt]
  · -- at least one full sector beyond the front one
    have hrge : rps ≤ remaining := by
      have h1 := (Nat.le_div_iff_mul_le hrps1).1 hfpos
      omega
    rw [if_neg (by omega : ¬ rps > remaining)]
    have hsub_div : (remaining - rps) / rps = remaining / rps - 1 := by
      have h2 := Nat.div_eq_sub_div hrps1 hrge
      omega
    have hsub_mod : (remaining - rps) % rps = remaining % rps :=
      (Nat.mod_eq_sub_mod hrge).symm
    rw [hsub_div, hsub_mod]
    have hbacksec : ((fs + 1) % N + (remaining / rps - 1) + 1) % N = fs := by
      have h1 : (fs + 1) % N + (remaining / rps - 1) + 1 =
          (fs + 1) % N + remaining / rps := by
        omega
      rw [h1, Nat.mod_add_mod,
        show fs + 1 + remaining / rps = fs + remaining / rps + 1 from by omega]
      exact hfull2
    rw [hbacksec]

/-- **C1.** In overwrite mode, when `push_back` detects full
(`rem_front ≤ record_num` and the computed `back_sec = front_sec`), it
advances `front` to `((front_sec + 1) mod N) · S`, decrements
`record_num` by `rem_front`, and the offset it then writes the record
at equals `get_back` applied to the post-drop state (plus the data
region base `header_offset`): the stale `back` it uses happens to agree
with the re-derived one. -/
theorem push_back_overwrite_rederives (cfg : Config) (s : CBState)
    (hov : cfg.overwrite = true)
    (hrs : 1 ≤ cfg.record_size) (hsz : cfg.record_size ≤ cfg.sec_size)
    (hfr : s.front < sec_num cfg * cfg.sec_size)
    (hfull1 : (cfg.sec_size - s.front % cfg.sec_size) / cfg.record_size ≤ s.record_num)
    (hfull2 : (s.front / cfg.sec_size +
        (s.record_num - (cfg.sec_size - s.front % cfg.sec_size) / cfg.record_size) / records_in_sec cfg + 1)
        % sec_num cfg = s.front / cfg.sec_size) :
    push_back_compute cfg s =
      some (⟨(s.front / cfg.sec_size + 1) % sec_num cfg * cfg.sec_size,
          s.record_num - (cfg.sec_size - s.front % cfg.sec_size) / cfg.record_size,
          s.sequence⟩,
        get_back cfg ((s.front / cfg.sec_size + 1) % sec_num cfg * cfg.sec_size)
          (s.record_num - (cfg.sec_size - s.front % cfg.sec_size) / cfg.record_size)) ∧
    FlashOp.write
        (get_back cfg ((s.front / cfg.sec_size + 1) % sec_num cfg * cfg.sec_size)
            (s.record_num - (cfg.sec_size - s.front % cfg.sec_size) / cfg.record_size) +
          header_offset cfg)
        cfg.record_size ∈ (push_back cfg s).2.2 := by
  have hdrop := get_back_after_drop cfg s.front s.record_num hrs hsz hfr hfull2
  have hcompute : push_back_compute cfg s =
      some (⟨(s.front / cfg.sec_size + 1) % sec_num cfg * cfg.sec_size,
          s.record_num - (cfg.sec_size - s.front % cfg.sec_size) / cfg.record_size,
          s.sequence⟩,
        get_back cfg ((s.front / cfg.sec_size + 1) % sec_num cfg * cfg.sec_size)
          (s.record_num - (cfg.sec_size - s.front % cfg.sec_size) / cfg.record_size)) := by
    unfold push_back_compute
    dsimp only
    rw [if_neg (by omega :
      ¬ (cfg.sec_size - s.front % cfg.sec_size) / cfg.record_size > s.record_num)]
    rw [if_pos (beq_iff_eq.mpr hfull2), if_pos hov, hfull2, hdrop]
  refine ⟨hcompute, ?_⟩
  unfold push_back
  rw [hcompute]
  dsimp only
  by_cases hback :
      get_back cfg ((s.front / cfg.sec_size + 1) % sec_num cfg * cfg.sec_size)
        (s.record_num - (cfg.sec_size - s.front % cfg.sec_size) / cfg.record_size)
        % cfg.sec_size = 0
  · simp [hback]
  · simp [hback]

/-- Witness for C1: `S = 8`, `record_size = 2`, `N = 2`, overwrite on,
at the full state `front = 0, record_num = 8`: the sector drop leaves
`front = 8, record_num = 4` and the record is written at
`get_back 8 4 = 0` plus the data-region base. -/
theorem push_back_overwrite_rederives_witness :
    push_back_compute cfgO { front := 0, record_num := 8, sequence := 8 } =
      some (⟨8, 4, 8⟩, get_back cfgO 8 4) ∧
    FlashOp.write (get_back cfgO 8 4 + header_offset cfgO) cfgO.record_size ∈
      (push_back cfgO { front := 0, record_num := 8, sequence := 8 }).2.2 := by
  have h := push_back_overwrite_rederives cfgO { front := 0, record_num := 8, sequence := 8 }
    rfl (by decide) (by decide) (by decide) (by decide) (by decide)
  exact h

/-- The in-memory state `push_back` leaves behind, as a function of
`push_back_compute`: unchanged on the full-without-overwrite failure,
otherwise the mutated state with `record_num` and `sequence` bumped. -/
theorem push_back_state_char (cfg : Config) (s : CBState) :
    (push_back cfg s).2.1 =
      match push_back_compute cfg s with
      | none => s
      | some (s1, _) =>
          { front := s1.front, record_num := (s1.record_num + 1) % U32MOD,
            sequence := (s1.sequence + 1) % U32MOD } := by
  unfold push_back
  cases hc : push_back_compute cfg s with
  | none => rfl
  | some p =>
      obtain ⟨s1, back⟩ := p
      rfl

/-- The in-memory state `delete_front` leaves behind. -/
theorem delete_front_state_char (cfg : Config) (s : CBState) :
    (delete_front cfg s).2.1 =
      { front := if cfg.sec_size - s.front % cfg.sec_size > 2 * cfg.record_size
            then s.front + cfg.record_size
            else (s.front / cfg.sec_size + 1) % sec_num cfg * cfg.sec_size,
        record_num := (s.record_num + (U32MOD - 1)) % U32MOD,
        sequence := (s.sequence + 1) % U32MOD } := rfl

/-- `push_back` preserves the state invariant. -/
theorem push_preserves_inv (cfg : Config) (s : CBState)
    (hrs : 1 ≤ cfg.record_size) (hsz : cfg.record_size ≤ cfg.sec_size)
    (hN : 1 ≤ sec_num cfg) (hcap : get_max_records cfg < U32MOD)
    (hinv : Inv cfg s) : Inv cfg (step cfg s Op.push) := by
  obtain ⟨hcap_inv, halign, hfr, hslot⟩ := hinv
  have hSpos : 0 < cfg.sec_size := Nat.lt_of_lt_of_le hrs hsz
  have hrspos : 0 < cfg.record_size := hrs
  have hrps1 : 1 ≤ records_in_sec cfg :=
    (Nat.le_div_iff_mul_le hrspos).2 (by omega)
  have hrpscap : records_in_sec cfg ≤ get_max_records cfg :=
    Nat.le_mul_of_pos_left _ hN
  have hremle : (cfg.sec_size - s.front % cfg.sec_size) / cfg.record_size ≤
      records_in_sec cfg :=
    Nat.div_le_div_right (Nat.sub_le _ _)
  have hrem1 : 1 ≤ (cfg.sec_size - s.front % cfg.sec_size) / cfg.record_size :=
    (Nat.le_div_iff_mul_le hrspos).2 (by omega)
  have hfsN : s.front / cfg.sec_size < sec_num cfg :=
    (Nat.div_lt_iff_lt_mul hSpos).2 hfr
  unfold step
  dsimp only
  rw [push_back_state_char]
  by_cases h1 : (cfg.sec_size - s.front % cfg.sec_size) / cfg.record_size > s.record_num
  · have hcomp : push_back_compute cfg s =
        some (s, s.front + s.record_num * cfg.record_size) := by
      unfold push_back_compute
      dsimp only
      rw [if_pos h1]
    rw [hcomp]
    dsimp only
    refine ⟨?_, halign, hfr, hslot⟩
    dsimp only
    rw [Nat.mod_eq_of_lt (by omega)]
    omega
  · by_cases h2 : (s.front / cfg.sec_size +
        (s.record_num - (cfg.sec_size - s.front % cfg.sec_size) / cfg.record_size) /
          records_in_sec cfg + 1) % sec_num cfg = s.front / cfg.sec_size
    · cases hov : cfg.overwrite
      · have hcomp : push_back_compute cfg s = none := by
          unfold push_back_compute
          dsimp only
          rw [if_neg h1, if_pos (beq_iff_eq.mpr h2), hov]
          rfl
        rw [hcomp]
        exact ⟨hcap_inv, halign, hfr, hslot⟩
      · have hcomp : push_back_compute cfg s =
            some (⟨(s.front / cfg.sec_size + 1) % sec_num cfg * cfg.sec_size,
                s.record_num - (cfg.sec_size - s.front % cfg.sec_size) / cfg.record_size,
                s.sequence⟩,
              (s.front / cfg.sec_size +
                  (s.record_num - (cfg.sec_size - s.front % cfg.sec_size) / cfg.record_size) /
                    records_in_sec cfg + 1) % sec_num cfg * cfg.sec_size +
                (s.record_num - (cfg.sec_size - s.front % cfg.sec_size) / cfg.record_size) %
                  records_in_sec cfg * cfg.record_size) := by
          unfold push_back_compute
          dsimp only
          rw [if_neg h1, if_pos (beq_iff_eq.mpr h2), hov]
          rfl
        rw [hcomp]
        dsimp only
        refine ⟨?_, ?_, ?_, ?_⟩
        · dsimp only
          rw [Nat.mod_eq_of_lt (by omega)]
          omega
        · dsimp only
          rw [Nat.mul_mod_left, Nat.zero_mod]
        · dsimp only
          exact (Nat.mul_lt_mul_right hSpos).2 (Nat.mod_lt _ (by omega))
        · dsimp only
          rw [Nat.mul_mod_left, Nat.sub_zero]
          exact hsz
    · have hcomp : push_back_compute cfg s =
          some (s,
            (s.front / cfg.sec_size +
                (s.record_num - (cfg.sec_size - s.front % cfg.sec_size) / cfg.record_size) /
                  records_in_sec cfg + 1) % sec_num cfg * cfg.sec_size +
              (s.record_num - (cfg.sec_size - s.front % cfg.sec_size) / cfg.record_size) %
                records_in_sec cfg * cfg.record_size) := by
        unfold push_back_compute
        dsimp only
        rw [if_neg h1, if_neg (fun hc => h2 (beq_iff_eq.mp hc))]
      rw [hcomp]
      dsimp only
      have hrn_lt : s.record_num < get_max_records cfg := by
        rcases Nat.lt_or_ge s.record_num (get_max_records cfg) with h | h
        · exact h
        · exfalso
          apply h2
          have hrneq : s.record_num = get_max_records cfg := by omega
          have hcapval : get_max_records cfg = sec_num cfg * records_in_sec cfg := rfl
          have hNsplit : sec_num cfg * records_in_sec cfg =
              (sec_num cfg - 1) * records_in_sec cfg + records_in_sec cfg := by
            have h3 : sec_num cfg = (sec_num cfg - 1) + 1 := by omega
            calc sec_num cfg * records_in_sec cfg
                = ((sec_num cfg - 1) + 1) * records_in_sec cfg := by rw [← h3]
              _ = (sec_num cfg - 1) * records_in_sec cfg + records_in_sec cfg :=
                  Nat.succ_mul _ _
          have hval : s.record_num -
              (cfg.sec_size - s.front % cfg.sec_size) / cfg.record_size =
              (records_in_sec cfg -
                  (cfg.sec_size - s.front % cfg.sec_size) / cfg.record_size) +
                (sec_num cfg - 1) * records_in_sec cfg := by
            rw [hrneq, hcapval, hNsplit]
            omega
          have hfull : (s.record_num -
              (cfg.sec_size - s.front % cfg.sec_size) / cfg.record_size) /
                records_in_sec cfg = sec_num cfg - 1 := by
            rw [hval, Nat.add_mul_div_right _ _ (by omega : 0 < records_in_sec cfg),
              (Nat.div_eq_zero_iff (by omega : 0 < records_in_sec cfg)).2 (by omega),
              Nat.zero_add]
          rw [hfull, show s.front / cfg.sec_size + (sec_num cfg - 1) + 1 =
            s.front / cfg.sec_size + sec_num cfg from by omega, Nat.add_mod_right]
          exact Nat.mod_eq_of_lt hfsN
      refine ⟨?_, halign, hfr, hslot⟩
      dsimp only
      rw [Nat.mod_eq_of_lt (by omega)]
      omega


/-- `delete_front` on a non-empty buffer preserves the state invariant. -/
theorem delete_preserves_inv (cfg : Config) (s : CBState)
    (hrs : 1 ≤ cfg.record_size) (hsz : cfg.record_size ≤ cfg.sec_size)
    (hN : 1 ≤ sec_num cfg) (hcap : get_max_records cfg < U32MOD)
    (hinv : Inv cfg s) (hne : 1 ≤ s.record_num) :
    Inv cfg (step cfg s Op.delete) := by
  obtain ⟨hcap_inv, halign, hfr, hslot⟩ := hinv
  have hSpos : 0 < cfg.sec_size := Nat.lt_of_lt_of_le hrs hsz
  have hfsN : s.front / cfg.sec_size < sec_num cfg :=
    (Nat.div_lt_iff_lt_mul hSpos).2 hfr
  have hmodS : s.front % cfg.sec_size < cfg.sec_size := Nat.mod_lt _ hSpos
  have hrn : (s.record_num + (U32MOD - 1)) % U32MOD = s.record_num - 1 := by
    have h32 : s.record_num < U32MOD := by omega
    unfold U32MOD at *
    omega
  unfold step
  rw [delete_front_state_char]
  by_cases h : cfg.sec_size - s.front % cfg.sec_size > 2 * cfg.record_size
  · rw [if_pos h]
    have hlt : s.front % cfg.sec_size + cfg.record_size < cfg.sec_size := by omega
    have hmod : (s.front + cfg.record_size) % cfg.sec_size =
        s.front % cfg.sec_size + cfg.record_size := by
      rw [Nat.add_mod, Nat.mod_eq_of_lt (by omega : cfg.record_size < cfg.sec_size),
        Nat.mod_eq_of_lt hlt]
    refine ⟨?_, ?_, ?_, ?_⟩
    · dsimp only
      rw [hrn]
      omega
    · dsimp only
      rw [hmod, Nat.add_mod_right, halign]
    · dsimp only
      have hdm := Nat.div_add_mod s.front cfg.sec_size
      have hq1 : s.front / cfg.sec_size + 1 ≤ sec_num cfg := hfsN
      calc s.front + cfg.record_size
          = cfg.sec_size * (s.front / cfg.sec_size) + s.front % cfg.sec_size +
              cfg.record_size := by omega
        _ < cfg.sec_size * (s.front / cfg.sec_size) + cfg.sec_size := by omega
        _ = cfg.sec_size * (s.front / cfg.sec_size + 1) := by
              rw [Nat.mul_succ]
        _ ≤ cfg.sec_size * sec_num cfg := Nat.mul_le_mul_left _ hq1
        _ = sec_num cfg * cfg.sec_size := Nat.mul_comm _ _
    · dsimp only
      rw [hmod]
      omega
  · rw [if_neg h]
    refine ⟨?_, ?_, ?_, ?_⟩
    · dsimp only
      rw [hrn]
      omega
    · dsimp only
      rw [Nat.mul_mod_left, Nat.zero_mod]
    · dsimp only
      exact (Nat.mul_lt_mul_right hSpos).2 (Nat.mod_lt _ (by omega))
    · dsimp only
      rw [Nat.mul_mod_left, Nat.sub_zero]
      exact hsz

/-- Any admissible sequence of operations preserves the invariant. -/
theorem run_preserves_inv (cfg : Config)
    (hrs : 1 ≤ cfg.record_size) (hsz : cfg.record_size ≤ cfg.sec_size)
    (hN : 1 ≤ sec_num cfg) (hcap : get_max_records cfg < U32MOD)
    (ops : List Op) :
    ∀ s : CBState, Inv cfg s → admissible cfg s ops = true →
      Inv cfg (run cfg s ops) := by
  induction ops with
  | nil =>
      intro s hinv _
      exact hinv
  | cons op rest ih =>
      intro s hinv hadm
      unfold admissible at hadm
      rw [Bool.and_eq_true] at hadm
      obtain ⟨hguard, hrest⟩ := hadm
      unfold run
      apply ih
      · cases op with
        | push => exact push_preserves_inv cfg s hrs hsz hN hcap hinv
        | delete =>
            have hne : 1 ≤ s.record_num := by
              cases hd : decide (1 ≤ s.record_num) with
              | false =>
                  exfalso
                  rw [hd] at hguard
                  simp at hguard
              | true => exact of_decide_eq_true hd
            exact delete_preserves_inv cfg s hrs hsz hN hcap hinv hne
      · exact hrest

/-- **C9, counterexample.** With `S = 8`, `record_size = 3`, `N = 2`:
the capacity-respecting sequence push, push, delete, delete starting
from the reset state ends with `front = 8`, which is not a multiple of
`record_size = 3` (the second delete jumps `front` to a sector start,
and sector starts need not be record-aligned when `record_size` does
not divide `S`). -/
theorem front_not_record_aligned :
    admissible cfg9 { front := 0, record_num := 0, sequence := 0 }
      [Op.push, Op.push, Op.delete, Op.delete] = true ∧
    (run cfg9 { front := 0, record_num := 0, sequence := 0 }
      [Op.push, Op.push, Op.delete, Op.delete]).front % cfg9.record_size ≠ 0 := by
  decide

/-- **C9, amended.** For every sequence of `push_back`/`delete_front`
operations respecting capacity (each delete issued on a non-empty
buffer), starting from a freshly reset mount, the invariant
`0 ≤ record_num ≤ capacity` holds and `front mod S` is a multiple of
`record_size` after every operation (so `front` itself is a multiple of
`record_size` whenever `record_size` divides `S`). -/
theorem push_delete_invariant (cfg : Config) (ops : List Op) (seq0 : Nat)
    (hrs : 1 ≤ cfg.record_size) (hsz : cfg.record_size ≤ cfg.sec_size)
    (hN : 1 ≤ sec_num cfg) (hcap : get_max_records cfg < U32MOD)
    (hadm : admissible cfg { front := 0, record_num := 0, sequence := seq0 } ops = true) :
    (run cfg { front := 0, record_num := 0, sequence := seq0 } ops).record_num ≤
      get_max_records cfg ∧
    (run cfg { front := 0, record_num := 0, sequence := seq0 } ops).front %
      cfg.sec_size % cfg.record_size = 0 := by
  have h0 : Inv cfg { front := 0, record_num := 0, sequence := seq0 } := by
    refine ⟨Nat.zero_le _, ?_, ?_, ?_⟩
    · dsimp only
      rw [Nat.zero_mod, Nat.zero_mod]
    · dsimp only
      exact Nat.mul_pos (by omega) (Nat.lt_of_lt_of_le hrs hsz)
    · dsimp only
      rw [Nat.zero_mod, Nat.sub_zero]
      exact hsz
  have h := run_preserves_inv cfg hrs hsz hN hcap ops _ h0 hadm
  exact ⟨h.1, h.2.1⟩

/-- Witness for C9 at the `S = 8, record_size = 3, N = 2` geometry
with the trace push, delete. -/
theorem push_delete_invariant_witness :
    (run cfg9 { front := 0, record_num := 0, sequence := 0 }
      [Op.push, Op.delete]).record_num ≤ get_max_records cfg9 ∧
    (run cfg9 { front := 0, record_num := 0, sequence := 0 }
      [Op.push, Op.delete]).front % cfg9.sec_size % cfg9.record_size = 0 :=
  push_delete_invariant cfg9 [Op.push, Op.delete] 0
    (by decide) (by decide) (by decide) (by decide) (by decide)

/-- **C10.** `peek_front` never mutates the in-memory state and never
issues a flash write or erase, whether the read succeeds or fails; when
`record_num > 0` its only flash access is a single read of
`record_size` bytes at `front + header_offset`. -/
theorem peek_front_frame (cfg : Config) (s : CBState) (readOk : Bool) :
    (peek_front cfg s readOk).2.1 = s ∧
    (∀ op ∈ (peek_front cfg s readOk).2.2, ∃ off len, op = FlashOp.read off len) ∧
    (s.record_num ≠ 0 →
      (peek_front cfg s readOk).2.2 =
        [FlashOp.read (s.front + header_offset cfg) cfg.record_size]) := by
  by_cases h : s.record_num = 0
  · refine ⟨?_, ?_, ?_⟩ <;> simp [peek_front, h]
  · refine ⟨?_, ?_, ?_⟩ <;> simp [peek_front, h]

/-- Witness for C10: a non-empty state at the §8 geometry. -/
theorem peek_front_frame_witness :
    (peek_front cfgS { front := 32, record_num := 3, sequence := 0 } true).2.1 =
      { front := 32, record_num := 3, sequence := 0 } ∧
    (peek_front cfgS { front := 32, record_num := 3, sequence := 0 } true).2.2 =
      [FlashOp.read (32 + header_offset cfgS) cfgS.record_size] :=
  ⟨(peek_front_frame cfgS { front := 32, record_num := 3, sequence := 0 } true).1,
    (peek_front_frame cfgS { front := 32, record_num := 3, sequence := 0 } true).2.2
      (by decide)⟩

end CircularBuffer
